import Mathlib

/-!
Verification of the image-classification service's preprocessing and
inference pipeline, shallowly embedded in Lean 4.

Sources embedded here:
- `backend/utils/image_processor.py` (class `ImageProcessor`): decoding to
  RGB, `Resize(256)` shortest side, `CenterCrop(224)`, `ToTensor`,
  per-channel `Normalize`, `unsqueeze(0)`.
- `backend/models/model_loader.py` (class `ModelLoader`): lazy model load,
  `predict`, `predict_top_k` (softmax + `torch.topk`).
- `backend/app/main.py` (`/classify` handler): extension allow-list via
  `os.path.splitext`, response assembly with 4-decimal rounding.
- `backend/main.py` (`/predict` handler) and `backend/model.py`
  (`ImageClassifier`, `get_classifier`): the second pipeline.

Modelling conventions: pixel values are naturals in [0,255]; tensor entries
and probabilities are exact rationals (`ℚ`); the opaque pretrained network is
a parameter `m : Tensor4 → List ℚ` (tensor in, score vector out); the real
function `exp` used by softmax is a parameter `e : ℚ → ℚ` assumed positive
and exponential (`e (a + b) = e a * e b`), which is all the proofs use.
Library calls are modelled by their documented semantics: PIL interpolation
is modelled as nearest-neighbour sampling (which preserves the pixel value
range, the only fact the claims use), `torchvision.transforms.Resize(n)`
scales the shorter edge to `n` with the longer edge `int(n * long / short)`
(floor), `CenterCrop` pads with zeros when the input is smaller than the
crop, and `torch.topk(p, k, sorted=True)` returns the `k` largest entries in
descending order, earlier indices first among equal values (its CPU
behaviour), failing when `k` exceeds the number of elements.
-/

namespace ImgClassify

/-- A decoded image: a 3-channel (RGB) pixel grid. `pix c y x` is the value
of channel `c` at row `y`, column `x`, a natural in `[0, 255]`. -/
structure Img where
  width : ℕ
  height : ℕ
  pix : ℕ → ℕ → ℕ → ℕ

/-- A (possibly batched) tensor: a shape together with entries addressed by
batch, channel, row, column. Entries are exact rationals, standing for the
finite `float32` values of the source. -/
structure Tensor4 where
  shape : List ℕ
  val : ℕ → ℕ → ℕ → ℕ → ℚ

/-- ImageNet per-channel mean used by `transforms.Normalize` in
`ImageProcessor.__init__` (`backend/utils/image_processor.py`). -/
def imagenetMean (c : ℕ) : ℚ :=
  if c = 0 then 485/1000 else if c = 1 then 456/1000 else 406/1000

/-- ImageNet per-channel standard deviation used by `transforms.Normalize`
in `ImageProcessor.__init__`. -/
def imagenetStd (c : ℕ) : ℚ :=
  if c = 0 then 229/1000 else if c = 1 then 224/1000 else 225/1000

/-- `transforms.Resize(target)` with an integer size: scale the image so the
shorter edge equals `target`, the longer edge becoming
`int(target * long / short)`. Resampling is modelled as nearest-neighbour
source lookup. -/
def resizeShortest (target : ℕ) (img : Img) : Img :=
  if img.width ≤ img.height then
    let newW := target
    let newH := target * img.height / img.width
    ⟨newW, newH, fun c y x => img.pix c (y * img.height / newH) (x * img.width / newW)⟩
  else
    let newH := target
    let newW := target * img.width / img.height
    ⟨newW, newH, fun c y x => img.pix c (y * img.height / newH) (x * img.width / newW)⟩

/-- `transforms.CenterCrop(size)`: crop the spatial centre to
`size × size`; out-of-range positions (only reachable when the input is
smaller than the crop) are zero-padded, as torchvision does. -/
def centerCrop (size : ℕ) (img : Img) : Img :=
  let top := (img.height - size) / 2
  let left := (img.width - size) / 2
  ⟨size, size, fun c y x =>
    if y + top < img.height ∧ x + left < img.width then img.pix c (y + top) (x + left) else 0⟩

/-- `ImageProcessor.preprocess_image`: the `transforms.Compose` pipeline
(`Resize(256)`, `CenterCrop(224)`, `ToTensor` scaling to `[0,1]`,
`Normalize(mean, std)`) followed by `unsqueeze(0)`
(`backend/utils/image_processor.py`, lines 66-82). -/
def preprocess_image (img : Img) : Tensor4 :=
  let r := centerCrop 224 (resizeShortest 256 img)
  { shape := [1, 3, r.height, r.width]
    val := fun _ c y x => ((r.pix c y x : ℚ) / 255 - imagenetMean c) / imagenetStd c }

lemma resizeShortest_pix_le (img : Img) (hpix : ∀ c y x, img.pix c y x ≤ 255)
    (target c y x : ℕ) : (resizeShortest target img).pix c y x ≤ 255 := by
  unfold resizeShortest
  split <;> exact hpix _ _ _

lemma centerCrop_pix_le (img : Img) (hpix : ∀ c y x, img.pix c y x ≤ 255)
    (size c y x : ℕ) : (centerCrop size img).pix c y x ≤ 255 := by
  unfold centerCrop
  simp only
  split
  · exact hpix _ _ _
  · exact Nat.zero_le 255

lemma imagenetStd_pos (c : ℕ) : 0 < imagenetStd c := by
  unfold imagenetStd
  split_ifs <;> norm_num

lemma normalize_bounds (q : ℚ) (h0 : 0 ≤ q) (h1 : q ≤ 1) (c : ℕ) :
    -3 ≤ (q - imagenetMean c) / imagenetStd c ∧ (q - imagenetMean c) / imagenetStd c ≤ 3 := by
  have hs := imagenetStd_pos c
  constructor
  · rw [le_div_iff hs]
    unfold imagenetMean imagenetStd
    split_ifs <;> norm_num <;> linarith
  · rw [div_le_iff hs]
    unfold imagenetMean imagenetStd
    split_ifs <;> norm_num <;> linarith

/-- Claim C1: for every valid input image (any resolution, pixel values in
`[0,255]`), `ImageProcessor.preprocess_image` returns a tensor of shape
`(1, 3, 224, 224)` all of whose entries are finite; finiteness is witnessed
by the explicit bounds `-3 ≤ v ≤ 3` (the extreme reachable values are
`(0 - 0.485)/0.229 ≈ -2.118` and `(1 - 0.406)/0.225 = 2.64`), so no entry is
NaN or infinite. -/
theorem preprocess_image_shape_and_finite (img : Img)
    (hw : 0 < img.width) (hh : 0 < img.height)
    (hpix : ∀ c y x, img.pix c y x ≤ 255) :
    (preprocess_image img).shape = [1, 3, 224, 224] ∧
    ∀ b c y x, -3 ≤ (preprocess_image img).val b c y x ∧
      (preprocess_image img).val b c y x ≤ 3 := by
  constructor
  · rfl
  · intro b c y x
    have hple : (centerCrop 224 (resizeShortest 256 img)).pix c y x ≤ 255 :=
      centerCrop_pix_le _ (fun c y x => resizeShortest_pix_le img hpix 256 c y x) 224 c y x
    have h0 : (0 : ℚ) ≤ ((centerCrop 224 (resizeShortest 256 img)).pix c y x : ℚ) / 255 := by
      positivity
    have h1 : ((centerCrop 224 (resizeShortest 256 img)).pix c y x : ℚ) / 255 ≤ 1 := by
      rw [div_le_one (by norm_num : (0:ℚ) < 255)]
      exact_mod_cast hple
    exact normalize_bounds _ h0 h1 c

/-- Concrete witness for C1: a 300 × 200 all-grey image. -/
theorem preprocess_image_shape_and_finite_witness :
    (preprocess_image ⟨300, 200, fun _ _ _ => 128⟩).shape = [1, 3, 224, 224] :=
  (preprocess_image_shape_and_finite ⟨300, 200, fun _ _ _ => 128⟩
    (by norm_num) (by norm_num) (fun _ _ _ => by norm_num)).1

/-- The PIL colour modes exercised by this repository and its tests:
1-bit, greyscale, greyscale+alpha, palette, RGB, RGBA. -/
inductive PILMode where
  | one
  | grey
  | greyAlpha
  | palette
  | rgb
  | rgba
deriving DecidableEq

/-- A PIL image as `Image.open` yields it: a mode plus channel planes.
`chan i y x` is channel `i` (meaning depends on the mode: the single plane
for `1`/`L`/`P`, value+alpha for `LA`, R/G/B(/A) otherwise); `pal` is the
palette table of a `P`-mode image, mapping a palette index to an RGB
triple. -/
structure PILImage where
  mode : PILMode
  width : ℕ
  height : ℕ
  chan : ℕ → ℕ → ℕ → ℕ
  pal : ℕ → ℕ × ℕ × ℕ

/-- PIL `Image.convert("RGB")`, total over the modelled modes: greyscale
planes are replicated into the three channels, palette entries are looked
up, and an alpha plane is simply dropped (PIL does not composite when
converting RGBA to RGB). -/
def convertRGB (p : PILImage) : PILImage :=
  { p with
    mode := .rgb
    chan := fun c y x =>
      match p.mode with
      | .one => p.chan 0 y x
      | .grey => p.chan 0 y x
      | .greyAlpha => p.chan 0 y x
      | .palette =>
          let t := p.pal (p.chan 0 y x)
          if c = 0 then t.1 else if c = 1 then t.2.1 else t.2.2
      | .rgb => p.chan c y x
      | .rgba => p.chan c y x }

/-- The mode-normalisation step of `ImageProcessor.load_image_from_bytes`
and `load_image_from_path`: `if image.mode != "RGB": image =
image.convert("RGB")` (`backend/utils/image_processor.py`, lines 29-64). -/
def toRGBMode (p : PILImage) : PILImage :=
  if p.mode = .rgb then p else convertRGB p

/-- `ImageProcessor.load_image_from_bytes`: `Image.open` on the byte stream
(the container decoder itself is a library call, taken as a parameter
`decode`; it returns `none` exactly when PIL would raise on an unrecognised
container) followed by conversion to RGB. -/
def load_image_from_bytes (decode : List ℕ → Option PILImage) (b : List ℕ) :
    Option PILImage :=
  (decode b).map toRGBMode

/-- View an RGB-mode PIL image as a plain 3-channel pixel grid. -/
def toImg (p : PILImage) : Img :=
  ⟨p.width, p.height, p.chan⟩

/-- `ImageProcessor.process_from_bytes`: decode, convert to RGB, then run
the preprocessing pipeline (`backend/utils/image_processor.py`,
lines 84-95). -/
def process_from_bytes (decode : List ℕ → Option PILImage) (b : List ℕ) :
    Option Tensor4 :=
  (load_image_from_bytes decode b).map (fun p => preprocess_image (toImg p))

lemma toRGBMode_mode (p : PILImage) : (toRGBMode p).mode = .rgb := by
  unfold toRGBMode convertRGB
  split
  · assumption
  · rfl

/-- Claim C8: decoding always yields a 3-channel RGB-mode image, whatever
colour mode PIL opened (the conversion is a total function over the
modelled modes, so it never throws); in particular a semi-transparent RGBA
image is flattened by dropping its alpha plane, its RGB channels passing
through unchanged. -/
theorem load_image_always_rgb (p : PILImage) :
    (toRGBMode p).mode = .rgb ∧
    (p.mode = .rgba → ∀ c, c < 3 → ∀ y x, (toRGBMode p).chan c y x = p.chan c y x) ∧
    (∀ decode b q, load_image_from_bytes decode b = some q → q.mode = .rgb) := by
  refine ⟨toRGBMode_mode p, ?_, ?_⟩
  · intro hm c _ y x
    unfold toRGBMode convertRGB
    split
    · rfl
    · simp only [hm]
  · intro decode b q hq
    unfold load_image_from_bytes at hq
    rcases Option.map_eq_some'.mp hq with ⟨r, _, hr⟩
    exact hr ▸ toRGBMode_mode r

/-- Concrete witness for C8: a semi-transparent solid-red RGBA image
decodes to RGB mode with the red channel preserved. -/
theorem load_image_always_rgb_witness :
    (toRGBMode ⟨.rgba, 300, 200, fun c _ _ => if c = 0 then 255 else if c = 3 then 128 else 0,
        fun _ => (0, 0, 0)⟩).mode = .rgb ∧
    (toRGBMode ⟨.rgba, 300, 200, fun c _ _ => if c = 0 then 255 else if c = 3 then 128 else 0,
        fun _ => (0, 0, 0)⟩).chan 0 7 9 = 255 :=
  ⟨(load_image_always_rgb _).1, by
    have h := (load_image_always_rgb
      ⟨.rgba, 300, 200, fun c _ _ => if c = 0 then 255 else if c = 3 then 128 else 0,
        fun _ => (0, 0, 0)⟩).2.1 rfl 0 (by norm_num) 7 9
    rw [h]
    norm_num⟩

/-- Claim C9: the byte-level pipeline `ImageProcessor.process_from_bytes` is
deterministic. The embedding is a pure function of the input bytes — the
source performs no random or stateful computation on this path — so any two
calls on equal byte strings return bit-identical tensors, for every decoder
the image library may implement. -/
theorem process_from_bytes_deterministic
    (decode : List ℕ → Option PILImage) (b₁ b₂ : List ℕ) (h : b₁ = b₂) :
    process_from_bytes decode b₁ = process_from_bytes decode b₂ ∧
    process_from_bytes decode b₁ = process_from_bytes decode b₁ := by
  subst h
  exact ⟨rfl, rfl⟩

/-- Concrete witness for C9: two calls on the same byte string under a
concrete decoder agree. -/
theorem process_from_bytes_deterministic_witness :
    process_from_bytes
        (fun _ => some ⟨.rgb, 10, 10, fun _ _ _ => 5, fun _ => (0, 0, 0)⟩) [7, 7, 7] =
      process_from_bytes
        (fun _ => some ⟨.rgb, 10, 10, fun _ _ _ => 5, fun _ => (0, 0, 0)⟩) [7, 7, 7] :=
  (process_from_bytes_deterministic
    (fun _ => some ⟨.rgb, 10, 10, fun _ _ _ => 5, fun _ => (0, 0, 0)⟩) [7, 7, 7] [7, 7, 7] rfl).1

/-- `torch.nn.functional.softmax(scores, dim=0)` as torch computes it:
numerically stabilised by subtracting the maximum score before applying the
exponential `e`. -/
def softmaxTorch (e : ℚ → ℚ) : List ℚ → List ℚ
  | [] => []
  | h :: t =>
    let m := t.foldl max h
    (h :: t).map (fun x => e (x - m) / ((h :: t).map (fun y => e (y - m))).sum)

/-- The textbook softmax `e s_i / Σ_j e s_j`, with no stabilisation. -/
def softmaxDirect (e : ℚ → ℚ) (l : List ℚ) : List ℚ :=
  l.map (fun x => e x / (l.map e).sum)

/-- The ranking order used to model `torch.topk(·, k, sorted=True)` on a
list of (class index, probability) pairs: higher probability first, ties
broken by ascending class index. -/
def RankLE (a b : ℕ × ℚ) : Prop :=
  b.2 < a.2 ∨ (a.2 = b.2 ∧ a.1 ≤ b.1)

instance : DecidableRel RankLE := fun a b =>
  inferInstanceAs (Decidable (b.2 < a.2 ∨ (a.2 = b.2 ∧ a.1 ≤ b.1)))

/-- Insert into a `RankLE`-sorted list, keeping it sorted. -/
def insertRank (a : ℕ × ℚ) : List (ℕ × ℚ) → List (ℕ × ℚ)
  | [] => [a]
  | b :: t => if RankLE a b then a :: b :: t else b :: insertRank a t

/-- Sort descending by probability, ties by ascending class index (a stable
descending sort, the order `torch.topk` reports). -/
def sortRank : List (ℕ × ℚ) → List (ℕ × ℚ)
  | [] => []
  | a :: t => insertRank a (sortRank t)

/-- `torch.topk(probs, k, sorted=True)` over an indexed probability list:
the `k` top-ranked (index, value) pairs in descending order; `none` models
the `RuntimeError` torch raises when `k` exceeds the number of elements. -/
def topkDesc (probs : List ℚ) (k : ℕ) : Option (List (ℕ × ℚ)) :=
  if k ≤ probs.length then some ((sortRank probs.enum).take k) else none

lemma rankLE_total (a b : ℕ × ℚ) : RankLE a b ∨ RankLE b a := by
  rcases lt_trichotomy a.2 b.2 with h | h | h
  · exact Or.inr (Or.inl h)
  · rcases Nat.le_total a.1 b.1 with h1 | h1
    · exact Or.inl (Or.inr ⟨h, h1⟩)
    · exact Or.inr (Or.inr ⟨h.symm, h1⟩)
  · exact Or.inl (Or.inl h)

lemma rankLE_trans {a b c : ℕ × ℚ} (h1 : RankLE a b) (h2 : RankLE b c) : RankLE a c := by
  rcases h1 with h1 | ⟨h1e, h1i⟩ <;> rcases h2 with h2 | ⟨h2e, h2i⟩
  · exact Or.inl (h2.trans h1)
  · exact Or.inl (h2e ▸ h1)
  · exact Or.inl (h1e ▸ h2)
  · exact Or.inr ⟨h1e.trans h2e, h1i.trans h2i⟩

lemma insertRank_perm (a : ℕ × ℚ) (l : List (ℕ × ℚ)) :
    (insertRank a l).Perm (a :: l) := by
  induction l with
  | nil => exact List.Perm.refl _
  | cons b t ih =>
    unfold insertRank
    split
    · exact List.Perm.refl _
    · exact (ih.cons b).trans (List.Perm.swap a b t)

lemma sortRank_perm (l : List (ℕ × ℚ)) : (sortRank l).Perm l := by
  induction l with
  | nil => exact List.Perm.refl _
  | cons a t ih => exact (insertRank_perm a (sortRank t)).trans (ih.cons a)

lemma insertRank_sorted (a : ℕ × ℚ) {l : List (ℕ × ℚ)}
    (h : l.Pairwise RankLE) : (insertRank a l).Pairwise RankLE := by
  induction l with
  | nil => simp [insertRank]
  | cons b t ih =>
    rcases List.pairwise_cons.mp h with ⟨hb, ht⟩
    unfold insertRank
    split
    · rename_i hab
      exact List.pairwise_cons.mpr ⟨fun y hy => by
        rcases List.mem_cons.mp hy with rfl | hy
        · exact hab
        · exact rankLE_trans hab (hb y hy), h⟩
    · rename_i hab
      have hba : RankLE b a := (rankLE_total a b).resolve_left hab
      refine List.pairwise_cons.mpr ⟨fun y hy => ?_, ih ht⟩
      have : y ∈ a :: t := (insertRank_perm a t).subset hy
      rcases List.mem_cons.mp this with rfl | hy'
      · exact hba
      · exact hb y hy'

lemma sortRank_sorted (l : List (ℕ × ℚ)) : (sortRank l).Pairwise RankLE := by
  induction l with
  | nil => exact List.Pairwise.nil
  | cons a t ih => exact insertRank_sorted a ih

lemma sortRank_length (l : List (ℕ × ℚ)) : (sortRank l).length = l.length :=
  (sortRank_perm l).length_eq

lemma softmaxTorch_length (e : ℚ → ℚ) (l : List ℚ) :
    (softmaxTorch e l).length = l.length := by
  cases l with
  | nil => rfl
  | cons h t => simp [softmaxTorch]

lemma sum_map_div (l : List ℚ) (f : ℚ → ℚ) (s : ℚ) :
    (l.map (fun x => f x / s)).sum = (l.map f).sum / s := by
  induction l with
  | nil => simp
  | cons h t ih => simp [ih, add_div]

lemma sum_map_pos (f : ℚ → ℚ) (hf : ∀ x, 0 < f x) (h : ℚ) (t : List ℚ) :
    0 < ((h :: t).map f).sum := by
  induction t generalizing h with
  | nil => simpa using hf h
  | cons b t ih =>
    have := ih b
    simp only [List.map_cons, List.sum_cons] at this ⊢
    have := hf h
    linarith

lemma softmaxTorch_mem_bounds (e : ℚ → ℚ) (he : ∀ x, 0 < e x) (l : List ℚ)
    {p : ℚ} (hp : p ∈ softmaxTorch e l) : 0 ≤ p ∧ p ≤ 1 := by
  cases l with
  | nil => simp [softmaxTorch] at hp
  | cons h t =>
    unfold softmaxTorch at hp
    rcases List.mem_map.mp hp with ⟨x, hx, rfl⟩
    set m := t.foldl max h with hm
    have hS : 0 < ((h :: t).map (fun y => e (y - m))).sum :=
      sum_map_pos (fun y => e (y - m)) (fun y => he _) h t
    constructor
    · exact div_nonneg (le_of_lt (he _)) (le_of_lt hS)
    · rw [div_le_one hS]
      exact List.single_le_sum (l := (h :: t).map (fun y => e (y - m)))
        (fun y hy => by
          rcases List.mem_map.mp hy with ⟨z, _, rfl⟩
          exact le_of_lt (he _)) _
        (List.mem_map.mpr ⟨x, hx, rfl⟩)

lemma exp_shift (e : ℚ → ℚ) (he : ∀ x, 0 < e x)
    (hom : ∀ a b, e (a + b) = e a * e b) (x m : ℚ) :
    e (x - m) = e x * e (-m) := by
  rw [sub_eq_add_neg, hom]

lemma softmaxTorch_eq_direct (e : ℚ → ℚ) (he : ∀ x, 0 < e x)
    (hom : ∀ a b, e (a + b) = e a * e b) (l : List ℚ) :
    softmaxTorch e l = softmaxDirect e l := by
  cases l with
  | nil => rfl
  | cons h t =>
    unfold softmaxTorch softmaxDirect
    set m := t.foldl max h with hm
    have hmap : ((h :: t).map (fun y => e (y - m))) =
        ((h :: t).map (fun y => e y * e (-m))) := by
      apply List.map_congr_left
      intro y _
      exact exp_shift e he hom y m
    have hsum : ((h :: t).map (fun y => e (y - m))).sum =
        ((h :: t).map e).sum * e (-m) := by
      rw [hmap]
      exact List.sum_map_mul_right _ _ _
    apply List.map_congr_left
    intro x _
    rw [exp_shift e he hom x m, hsum]
    exact mul_div_mul_right _ _ (ne_of_gt (he (-m)))

lemma softmaxDirect_sum_one (e : ℚ → ℚ) (he : ∀ x, 0 < e x)
    (h : ℚ) (t : List ℚ) : (softmaxDirect e (h :: t)).sum = 1 := by
  unfold softmaxDirect
  rw [sum_map_div]
  exact div_self (ne_of_gt (sum_map_pos e he h t))

/-- Claim C6: the adapter's softmax step (`torch.nn.functional.softmax`,
stabilised by subtracting the maximum score before exponentiating) computes
exactly `e(s_i) / Σ_j e(s_j)` for each class, and the probabilities over all
1000 classes sum to exactly 1, hence certainly to 1 within the `1e-5`
tolerance. Stated for any positive exponential-law function `e`, which is
all that the identity uses. -/
theorem softmax_stabilized_and_sums_to_one (e : ℚ → ℚ) (scores : List ℚ)
    (he : ∀ x, 0 < e x) (hom : ∀ a b, e (a + b) = e a * e b)
    (hlen : scores.length = 1000) :
    softmaxTorch e scores = softmaxDirect e scores ∧
    (softmaxTorch e scores).sum = 1 ∧
    |(softmaxTorch e scores).sum - 1| ≤ 1/100000 := by
  obtain ⟨h, t, rfl⟩ : ∃ h t, scores = h :: t := by
    cases scores with
    | nil => simp at hlen
    | cons h t => exact ⟨h, t, rfl⟩
  have heq := softmaxTorch_eq_direct e he hom (h :: t)
  have hsum : (softmaxTorch e (h :: t)).sum = 1 := by
    rw [heq]
    exact softmaxDirect_sum_one e he h t
  exact ⟨heq, hsum, by rw [hsum]; norm_num⟩

/-- Concrete witness for C6: the constant function `1` satisfies the
positivity and exponential laws, and on a 1000-score vector the softmax
output sums to 1. -/
theorem softmax_stabilized_and_sums_to_one_witness :
    (softmaxTorch (fun _ => 1) (List.replicate 1000 0)).sum = 1 :=
  (softmax_stabilized_and_sums_to_one (fun _ => 1) (List.replicate 1000 0)
    (fun _ => one_pos) (fun _ _ => (mul_one 1).symm) (List.length_replicate 1000 0)).2.1

/-- `ModelLoader.predict_top_k` (`backend/models/model_loader.py`,
lines 84-122), at the level of (class index, confidence) pairs: run the
model on the tensor, softmax the score vector, take the top `k`. The
function performs no validation of the input tensor's shape — it hands the
tensor straight to the underlying model `m`. -/
def predictTopKIdx (e : ℚ → ℚ) (m : Tensor4 → List ℚ) (t : Tensor4) (k : ℕ) :
    Option (List (ℕ × ℚ)) :=
  topkDesc (softmaxTorch e (m t)) k

/-- `ModelLoader.predict_top_k` as the source returns it: each pair resolved
to `{"class_name": self.class_names[i], "confidence": p}` through the class
catalogue `names`. -/
def predict_top_k (e : ℚ → ℚ) (names : ℕ → String) (m : Tensor4 → List ℚ)
    (t : Tensor4) (k : ℕ) : Option (List (String × ℚ)) :=
  (predictTopKIdx e m t k).map (List.map (fun p => (names p.1, p.2)))

/-- `ModelLoader.predict` (`backend/models/model_loader.py`, lines 51-82):
`torch.topk(probabilities, 1)` then the single class name and confidence.
Like `predict_top_k` it performs no shape validation. -/
def predict (e : ℚ → ℚ) (names : ℕ → String) (m : Tensor4 → List ℚ)
    (t : Tensor4) : Option (String × ℚ) :=
  (predictTopKIdx e m t 1).bind (fun l => l.head?.map (fun p => (names p.1, p.2)))

lemma rankLE_weaken {a b : ℕ × ℚ} (h : RankLE a b) :
    b.2 ≤ a.2 ∧ (a.2 = b.2 → a.1 ≤ b.1) := by
  rcases h with h | ⟨he, hi⟩
  · exact ⟨le_of_lt h, fun heq => absurd (heq ▸ h) (lt_irrefl _)⟩
  · exact ⟨he.ge, fun _ => hi⟩

lemma topkDesc_take (probs : List ℚ) (k : ℕ) (hk : k ≤ probs.length) :
    topkDesc probs k = some ((sortRank probs.enum).take k) := by
  unfold topkDesc
  rw [if_pos hk]

/-- Claim C2: for every input tensor and every `k` with `1 ≤ k ≤ 1000`
(where the model emits 1000 scores), `ModelLoader.predict_top_k` succeeds
and returns exactly `k` entries; every confidence lies in `[0, 1]`; the
confidences are non-increasing along the list; and entries with equal
confidence appear in ascending order of their original class index. The
named output is exactly the indexed ranking with each index resolved
through the class catalogue. -/
theorem predict_top_k_ranked (e : ℚ → ℚ) (m : Tensor4 → List ℚ) (t : Tensor4)
    (k : ℕ) (he : ∀ x, 0 < e x) (hk1 : 1 ≤ k) (hk2 : k ≤ 1000)
    (hlen : (m t).length = 1000) :
    (predictTopKIdx e m t k).isSome = true ∧
    ((predictTopKIdx e m t k).getD []).length = k ∧
    (∀ p ∈ (predictTopKIdx e m t k).getD [], 0 ≤ p.2 ∧ p.2 ≤ 1) ∧
    ((predictTopKIdx e m t k).getD []).Pairwise
      (fun a b => b.2 ≤ a.2 ∧ (a.2 = b.2 → a.1 ≤ b.1)) ∧
    (∀ names, predict_top_k e names m t k =
      some (((predictTopKIdx e m t k).getD []).map (fun p => (names p.1, p.2)))) := by
  have hplen : (softmaxTorch e (m t)).length = 1000 := by
    rw [softmaxTorch_length, hlen]
  have hkp : k ≤ (softmaxTorch e (m t)).length := by omega
  have htop := topkDesc_take (softmaxTorch e (m t)) k hkp
  have hget : (predictTopKIdx e m t k).getD [] =
      (sortRank (softmaxTorch e (m t)).enum).take k := by
    unfold predictTopKIdx
    rw [htop]
    rfl
  refine ⟨?_, ?_, ?_, ?_, ?_⟩
  · unfold predictTopKIdx
    rw [htop]
    rfl
  · rw [hget, List.length_take, sortRank_length, List.enum_length, hplen]
    omega
  · intro p hp
    rw [hget] at hp
    have hp1 : p ∈ sortRank (softmaxTorch e (m t)).enum :=
      (List.take_sublist k _).mem hp
    have hp2 : p ∈ (softmaxTorch e (m t)).enum :=
      (sortRank_perm _).subset hp1
    obtain ⟨i, v⟩ := p
    obtain ⟨hi, hv⟩ := List.mem_enum hp2
    exact hv ▸ softmaxTorch_mem_bounds e he (m t) (List.getElem_mem hi)
  · rw [hget]
    exact (List.Pairwise.sublist (List.take_sublist k _) (sortRank_sorted _)).imp rankLE_weaken
  · intro names
    unfold predict_top_k predictTopKIdx at *
    rw [htop]
    rfl

/-- Concrete witness for C2: `k = 5` on a constant 1000-score vector under
the constant exponential. -/
theorem predict_top_k_ranked_witness :
    (predictTopKIdx (fun _ => 1) (fun _ => List.replicate 1000 0)
        ⟨[1, 3, 224, 224], fun _ _ _ _ => 0⟩ 5).isSome = true ∧
    ((predictTopKIdx (fun _ => 1) (fun _ => List.replicate 1000 0)
        ⟨[1, 3, 224, 224], fun _ _ _ _ => 0⟩ 5).getD []).length = 5 :=
  ⟨(predict_top_k_ranked (fun _ => 1) (fun _ => List.replicate 1000 0)
      ⟨[1, 3, 224, 224], fun _ _ _ _ => 0⟩ 5 (fun _ => one_pos)
      (by norm_num) (by norm_num) (List.length_replicate 1000 0)).1,
   (predict_top_k_ranked (fun _ => 1) (fun _ => List.replicate 1000 0)
      ⟨[1, 3, 224, 224], fun _ _ _ _ => 0⟩ 5 (fun _ => one_pos)
      (by norm_num) (by norm_num) (List.length_replicate 1000 0)).2.1⟩

/-- The input shape the MobileNetV2 pipeline is wired for. -/
def expectedShape : List ℕ := [1, 3, 224, 224]

/-- A tensor whose shape differs from the classifier's expected input
shape. -/
def badShapeTensor : Tensor4 :=
  ⟨[1, 3, 100, 100], fun _ _ _ _ => 0⟩

/-- Claim C4 counterexample: `ModelLoader.predict` contains no shape
validation whatsoever, so on a tensor of shape `(1, 3, 100, 100)` it does
not raise any `ShapeMismatchError` — it invokes the underlying model and
returns that model's prediction. Two models that differ on this tensor give
two different successful predictions, so the model really is invoked. -/
theorem predict_no_shape_check_counterexample :
    badShapeTensor.shape ≠ expectedShape ∧
    predict (fun _ => 1) (fun _ => "c") (fun _ => [0]) badShapeTensor = some ("c", 1) ∧
    predict (fun _ => 1) (fun _ => "c") (fun _ => [0, 0]) badShapeTensor =
      some ("c", 1/2) := by
  refine ⟨by decide, ?_, ?_⟩
  · norm_num [predict, predictTopKIdx, topkDesc, softmaxTorch, sortRank, insertRank,
      RankLE, List.enum, List.enumFrom]
  · norm_num [predict, predictTopKIdx, topkDesc, softmaxTorch, sortRank, insertRank,
      RankLE, List.enum, List.enumFrom]

/-- Claim C4 (amended): `ModelLoader.predict` and
`ModelLoader.predict_top_k` perform no input-shape validation — no
`ShapeMismatchError` exists anywhere in the source. For a tensor of any
shape, including every shape different from `(1, 3, 224, 224)`, they pass
the tensor straight to the underlying model and, whenever the model returns
a non-empty score vector (with `k` within range), produce an ordinary
successful prediction. -/
theorem predict_invokes_model_regardless_of_shape (e : ℚ → ℚ)
    (names : ℕ → String) (m : Tensor4 → List ℚ) (t : Tensor4) (k : ℕ)
    (hshape : t.shape ≠ expectedShape) (hne : m t ≠ [])
    (hk1 : 1 ≤ k) (hk : k ≤ (m t).length) :
    (predict e names m t).isSome = true ∧
    (predict_top_k e names m t k).isSome = true := by
  have hplen : (softmaxTorch e (m t)).length = (m t).length := softmaxTorch_length e (m t)
  have hlen1 : 1 ≤ (m t).length := by
    cases hmt : m t with
    | nil => exact absurd hmt hne
    | cons a l => simp [hmt]
  constructor
  · unfold predict predictTopKIdx
    rw [topkDesc_take _ 1 (by omega)]
    have h1 : ((sortRank (softmaxTorch e (m t)).enum).take 1).length = 1 := by
      rw [List.length_take, sortRank_length, List.enum_length, hplen]
      omega
    cases hl : (sortRank (softmaxTorch e (m t)).enum).take 1 with
    | nil => rw [hl] at h1; simp at h1
    | cons a l => simp [hl]
  · unfold predict_top_k predictTopKIdx
    rw [topkDesc_take _ k (by omega)]
    rfl

/-- Concrete witness for the amended C4: a `(1, 3, 100, 100)` tensor still
yields a successful top-3 prediction from a 1000-class model. -/
theorem predict_invokes_model_regardless_of_shape_witness :
    (predict (fun _ => 1) (fun _ => "c") (fun _ => List.replicate 1000 0)
        badShapeTensor).isSome = true ∧
    (predict_top_k (fun _ => 1) (fun _ => "c") (fun _ => List.replicate 1000 0)
        badShapeTensor 3).isSome = true :=
  predict_invokes_model_regardless_of_shape (fun _ => 1) (fun _ => "c")
    (fun _ => List.replicate 1000 0) badShapeTensor 3 (by decide)
    (by rw [List.replicate]; exact List.cons_ne_nil _ _)
    (by norm_num) (by rw [List.length_replicate]; norm_num)

/-- The handle produced by instantiating the pretrained MobileNetV2
network (opaque: only its identity matters to the load policy). -/
inductive NetHandle where
  | mobilenetV2
deriving DecidableEq

/-- The mutable state of a `ModelLoader` instance: `model` is the
`self.model` attribute (`None` until loaded); `builds` counts how many times
the underlying `models.mobilenet_v2(weights=...)` instantiation has run
(not a program variable — a ghost counter for stating the claim). -/
structure LoaderState where
  model : Option NetHandle
  builds : ℕ
deriving DecidableEq

/-- `ModelLoader.__init__`: `self.model = None`
(`backend/models/model_loader.py`, line 17). -/
def initLoader : LoaderState :=
  ⟨none, 0⟩

/-- `ModelLoader.load_model` (`backend/models/model_loader.py`,
lines 32-49): instantiate the network only when `self.model is None`. -/
def load_model (s : LoaderState) : LoaderState :=
  match s.model with
  | none => ⟨some .mobilenetV2, s.builds + 1⟩
  | some _ => s

/-- The state effect of `ModelLoader.predict` / `predict_top_k` on entry:
`if self.model is None: self.load_model()` (lines 61-62 and 95-96). -/
def predictEnsureLoaded (s : LoaderState) : LoaderState :=
  match s.model with
  | none => load_model s
  | some _ => s

/-- The module-level `_classifier_instance` global of `backend/model.py`
together with a ghost count of `ImageClassifier()` constructions (each of
which runs `_load_model`, i.e. `torch.hub.load`). -/
structure ClassifierGlobal where
  inst : Option NetHandle
  builds : ℕ
deriving DecidableEq

/-- `get_classifier` (`backend/model.py`, lines 66-73): construct the
classifier only when the global is `None`, then return the cached
instance. -/
def get_classifier (g : ClassifierGlobal) : ClassifierGlobal × NetHandle :=
  match g.inst with
  | none => (⟨some .mobilenetV2, g.builds + 1⟩, .mobilenetV2)
  | some c => (g, c)

lemma load_model_of_loaded {s : LoaderState} (h : s.model.isSome) :
    load_model s = s := by
  unfold load_model
  cases hm : s.model with
  | none => rw [hm] at h; simp at h
  | some m => rfl

lemma load_model_iterate_loaded (k : ℕ) :
    load_model^[k] (load_model initLoader) = load_model initLoader := by
  induction k with
  | zero => rfl
  | succ n ih =>
    rw [Function.iterate_succ_apply, load_model_of_loaded (by rfl), ih]

lemma get_classifier_state_iterate_loaded (k : ℕ) :
    (fun g => (get_classifier g).1)^[k] ((get_classifier ⟨none, 0⟩).1) =
      (get_classifier ⟨none, 0⟩).1 := by
  induction k with
  | zero => rfl
  | succ n ih =>
    have hfix : (get_classifier ((get_classifier ⟨none, 0⟩).1)).1 =
        (get_classifier ⟨none, 0⟩).1 := rfl
    rw [Function.iterate_succ_apply, hfix, ih]

/-- Claim C5: in both pipelines the underlying model is instantiated
exactly once per process, however many times the load operation runs.
Calling `ModelLoader.load_model` `n ≥ 1` times from a fresh loader leaves
the model loaded with exactly one instantiation; once loaded, a further
`load_model` returns the state entirely unchanged; an inference call made
before loading implicitly triggers the load. Likewise `get_classifier` in
the second pipeline constructs `ImageClassifier` exactly once in `n`
calls and afterwards keeps returning the cached instance unchanged. -/
theorem model_loaded_exactly_once (n : ℕ) (hn : 1 ≤ n) :
    (load_model^[n] initLoader).model = some .mobilenetV2 ∧
    (load_model^[n] initLoader).builds = 1 ∧
    (∀ s : LoaderState, s.model.isSome → load_model s = s) ∧
    (predictEnsureLoaded initLoader).model = some .mobilenetV2 ∧
    (predictEnsureLoaded initLoader).builds = 1 ∧
    ((fun g => (get_classifier g).1)^[n] ⟨none, 0⟩).builds = 1 ∧
    (∀ g : ClassifierGlobal, g.inst.isSome → get_classifier g = (g, (g.inst).getD .mobilenetV2)) := by
  obtain ⟨k, rfl⟩ : ∃ k, n = k + 1 := ⟨n - 1, by omega⟩
  have hiter : load_model^[k + 1] initLoader = load_model initLoader := by
    rw [Function.iterate_succ_apply, load_model_iterate_loaded]
  have giter : (fun g => (get_classifier g).1)^[k + 1] ⟨none, 0⟩ =
      (get_classifier ⟨none, 0⟩).1 := by
    rw [Function.iterate_succ_apply, get_classifier_state_iterate_loaded]
  refine ⟨by rw [hiter]; rfl, by rw [hiter]; rfl,
    fun s h => load_model_of_loaded h, rfl, rfl, by rw [giter]; rfl, ?_⟩
  intro g h
  unfold get_classifier
  cases hm : g.inst with
  | none => rw [hm] at h; simp at h
  | some c => simp [hm]

/-- Concrete witness for C5: three consecutive loads from a fresh process
instantiate the model once. -/
theorem model_loaded_exactly_once_witness :
    (load_model^[3] initLoader).builds = 1 ∧
    ((fun g => (get_classifier g).1)^[3] ⟨none, 0⟩).builds = 1 :=
  ⟨(model_loaded_exactly_once 3 (by norm_num)).2.1,
   (model_loaded_exactly_once 3 (by norm_num)).2.2.2.2.2.1⟩

/-- Python's `round` on an exact value: round to the nearest integer,
halves to the even neighbour (banker's rounding). -/
def roundHalfEven (q : ℚ) : ℤ :=
  if Int.fract q < 1/2 then ⌊q⌋
  else if 1/2 < Int.fract q then ⌊q⌋ + 1
  else if 2 ∣ ⌊q⌋ then ⌊q⌋ else ⌊q⌋ + 1

/-- `round(x, 4)` as the `/classify` handler applies it to every confidence
(`backend/app/main.py`, lines 121 and 126). -/
def round4 (q : ℚ) : ℚ :=
  (roundHalfEven (q * 10000) : ℚ) / 10000

lemma roundHalfEven_bounds (q : ℚ) :
    ⌊q⌋ ≤ roundHalfEven q ∧ roundHalfEven q ≤ ⌊q⌋ + 1 := by
  unfold roundHalfEven
  split_ifs <;> omega

lemma roundHalfEven_mono {q r : ℚ} (h : q ≤ r) :
    roundHalfEven q ≤ roundHalfEven r := by
  have hf : ⌊q⌋ ≤ ⌊r⌋ := Int.floor_le_floor h
  rcases lt_or_eq_of_le hf with hlt | heq
  · have h1 := (roundHalfEven_bounds q).2
    have h2 := (roundHalfEven_bounds r).1
    omega
  · have hq : Int.fract q = q - ⌊q⌋ := (Int.self_sub_floor q).symm
    have hr : Int.fract r = r - ⌊r⌋ := (Int.self_sub_floor r).symm
    have hfr : Int.fract q ≤ Int.fract r := by
      rw [hq, hr, ← heq]
      have : ((⌊q⌋ : ℚ)) = ((⌊q⌋ : ℚ)) := rfl
      linarith
    unfold roundHalfEven
    rw [← heq]
    split_ifs <;> first | omega | linarith

lemma round4_mono {q r : ℚ} (h : q ≤ r) : round4 q ≤ round4 r := by
  unfold round4
  have : roundHalfEven (q * 10000) ≤ roundHalfEven (r * 10000) :=
    roundHalfEven_mono (by nlinarith)
  have hc : ((roundHalfEven (q * 10000) : ℚ)) ≤ ((roundHalfEven (r * 10000) : ℚ)) := by
    exact_mod_cast this
  linarith

/-- One entry of the JSON response: `{"class_name": ..., "confidence": ...}`. -/
structure PredEntry where
  class_name : String
  confidence : ℚ
deriving DecidableEq

/-- The success body assembled by the `/classify` handler
(`backend/app/main.py`, lines 116-130). -/
structure ClassifyResponse where
  success : Bool
  filename : String
  prediction : PredEntry
  top_k : List PredEntry
deriving DecidableEq

/-- The inference-and-response part of the `/classify` handler
(`backend/app/main.py`, lines 102-130): one call to `model_loader.predict`
for the top-1 field, a second, separate call to
`model_loader.predict_top_k(image_tensor, k=5)` for the `top_k` field (both
on the same tensor), every confidence rounded to 4 decimal places. `none`
models the `except` branch that maps any pipeline exception to HTTP 500. -/
def classify_image (e : ℚ → ℚ) (names : ℕ → String) (m : Tensor4 → List ℚ)
    (filename : String) (t : Tensor4) : Option ClassifyResponse := do
  let p ← predict e names m t
  let tk ← predict_top_k e names m t 5
  pure { success := true
         filename := filename
         prediction := ⟨p.1, round4 p.2⟩
         top_k := tk.map (fun q => ⟨q.1, round4 q.2⟩) }

/-- The `top_k` field of an optional response (empty when the request
failed). -/
def respTopK (o : Option ClassifyResponse) : List PredEntry :=
  match o with
  | some r => r.top_k
  | none => []

/-- The `prediction.confidence` field of an optional response. -/
def respPredConf (o : Option ClassifyResponse) : ℚ :=
  match o with
  | some r => r.prediction.confidence
  | none => 0

/-- Claim C3: every successful `/classify` response carries exactly 5
`top_k` entries sorted descending by confidence; `prediction.confidence`
equals `top_k[0].confidence` (the handler's two separate inference calls on
the same tensor agree because the embedded model is a function of the
tensor); and the top-1 confidence and every `top_k` confidence are integer
multiples of `1/10000`, i.e. rounded to 4 decimal places. -/
theorem classify_response_consistent (e : ℚ → ℚ) (names : ℕ → String)
    (m : Tensor4 → List ℚ) (fn : String) (t : Tensor4)
    (hlen : (m t).length = 1000) :
    (classify_image e names m fn t).isSome = true ∧
    (respTopK (classify_image e names m fn t)).length = 5 ∧
    (respTopK (classify_image e names m fn t)).Pairwise
      (fun a b => b.confidence ≤ a.confidence) ∧
    ((respTopK (classify_image e names m fn t)).map (fun p => p.confidence)).head? =
      some (respPredConf (classify_image e names m fn t)) ∧
    (∀ p ∈ respTopK (classify_image e names m fn t),
      ∃ z : ℤ, p.confidence = (z : ℚ) / 10000) ∧
    (∃ z : ℤ, respPredConf (classify_image e names m fn t) = (z : ℚ) / 10000) := by
  have hplen : (softmaxTorch e (m t)).length = 1000 := by
    rw [softmaxTorch_length, hlen]
  set s := sortRank (softmaxTorch e (m t)).enum with hs
  have hslen : s.length = 1000 := by
    rw [hs, sortRank_length, List.enum_length, hplen]
  obtain ⟨a, rest, hcons⟩ : ∃ a rest, s = a :: rest := by
    cases hc : s with
    | nil => rw [hc] at hslen; simp at hslen
    | cons a r => exact ⟨a, r, rfl⟩
  have h1 : topkDesc (softmaxTorch e (m t)) 1 = some (s.take 1) :=
    topkDesc_take _ 1 (by omega)
  have h5 : topkDesc (softmaxTorch e (m t)) 5 = some (s.take 5) :=
    topkDesc_take _ 5 (by omega)
  have hpred : predict e names m t = some (names a.1, a.2) := by
    unfold predict predictTopKIdx
    rw [h1, hcons]
    rfl
  have htk : predict_top_k e names m t 5 =
      some ((s.take 5).map (fun p => (names p.1, p.2))) := by
    unfold predict_top_k predictTopKIdx
    rw [h5]
    rfl
  have hresp : classify_image e names m fn t = some
      { success := true, filename := fn
        prediction := ⟨names a.1, round4 a.2⟩
        top_k := (s.take 5).map (fun p => ⟨names p.1, round4 p.2⟩) } := by
    unfold classify_image
    rw [hpred, htk]
    simp [List.map_map]
    rfl
  rw [hresp]
  refine ⟨rfl, ?_, ?_, ?_, ?_, ⟨roundHalfEven (a.2 * 10000), rfl⟩⟩
  · show ((s.take 5).map _).length = 5
    rw [List.length_map, List.length_take, hslen]
    norm_num
  · show ((s.take 5).map _).Pairwise _
    rw [List.pairwise_map]
    exact (List.Pairwise.sublist (List.take_sublist 5 _) (sortRank_sorted _)).imp
      (fun h => round4_mono (rankLE_weaken h).1)
  · show (((s.take 5).map _).map _).head? = some (round4 a.2)
    rw [List.map_map, List.head?_map, List.head?_take, hcons]
    rfl
  · intro p hp
    rcases List.mem_map.mp hp with ⟨q, _, rfl⟩
    exact ⟨roundHalfEven (q.2 * 10000), rfl⟩

/-- Concrete witness for C3: the handler succeeds with a 5-entry `top_k`
under the constant exponential on a 1000-class constant model. -/
theorem classify_response_consistent_witness :
    (classify_image (fun _ => 1) (fun _ => "c") (fun _ => List.replicate 1000 0)
        "red.jpg" ⟨[1, 3, 224, 224], fun _ _ _ _ => 0⟩).isSome = true ∧
    (respTopK (classify_image (fun _ => 1) (fun _ => "c")
        (fun _ => List.replicate 1000 0) "red.jpg"
        ⟨[1, 3, 224, 224], fun _ _ _ _ => 0⟩)).length = 5 :=
  ⟨(classify_response_consistent (fun _ => 1) (fun _ => "c")
      (fun _ => List.replicate 1000 0) "red.jpg"
      ⟨[1, 3, 224, 224], fun _ _ _ _ => 0⟩ (List.length_replicate 1000 0)).1,
   (classify_response_consistent (fun _ => 1) (fun _ => "c")
      (fun _ => List.replicate 1000 0) "red.jpg"
      ⟨[1, 3, 224, 224], fun _ _ _ _ => 0⟩ (List.length_replicate 1000 0)).2.1⟩

/-- The extension allow-list shared by both upload endpoints
(`backend/app/main.py`, line 93; `backend/main.py`, line 49), as character
lists. Python iterates the set in an unspecified order; the order here is
the literal one, and only membership is ever relied on. -/
def allowedExtList : List (List Char) :=
  [".jpg".data, ".jpeg".data, ".png".data, ".bmp".data, ".gif".data, ".webp".data]

/-- `str.lower()` restricted to ASCII case folding (the only characters the
allow-list compares). -/
def lowerChars (cs : List Char) : List Char :=
  cs.map Char.toLower

/-- Index of the last occurrence of `c`, i.e. Python's `str.rfind`. -/
def rfindIdx (c : Char) (cs : List Char) : Option ℕ :=
  cs.enum.foldl (fun acc p => if p.2 = c then some p.1 else acc) none

/-- `os.path.splitext(p)[1]` (posixpath): the suffix from the last dot,
provided that dot lies after the last `/` and at least one character of the
basename before it is not a dot (so dotfiles such as `".jpg"` have no
extension). -/
def splitextExt (cs : List Char) : List Char :=
  let sepIdx : ℤ := match rfindIdx '/' cs with | some i => (i : ℤ) | none => -1
  let dotIdx : ℤ := match rfindIdx '.' cs with | some i => (i : ℤ) | none => -1
  if sepIdx < dotIdx then
    let s := (sepIdx + 1).toNat
    let d := dotIdx.toNat
    if ((cs.drop s).take (d - s)).any (fun ch => ch ≠ '.') then cs.drop d else []
  else []

/-- `cs.endswith(suffix)`. -/
def endsWithChars (cs suffix : List Char) : Bool :=
  suffix.length ≤ cs.length && cs.drop (cs.length - suffix.length) == suffix

/-- The `/classify` acceptance predicate (`backend/app/main.py`,
lines 92-96): `os.path.splitext(file.filename)[1].lower()` must be a member
of the allowed set. -/
def classifyAccepts (filename : List Char) : Bool :=
  allowedExtList.contains (lowerChars (splitextExt filename))

/-- The `/predict` acceptance predicate (`backend/main.py`, lines 48-52):
`file.filename.lower()` must end with one of the allowed extensions. -/
def predictAccepts (filename : List Char) : Bool :=
  allowedExtList.any (fun ext => endsWithChars (lowerChars filename) ext)

/-- The tail of the `/classify` rejection detail, constant across
filenames: `"。支持的格式: "` followed by the comma-joined allowed set. -/
def classifyMsgTail : List Char :=
  "。支持的格式: ".data ++ List.intercalate ", ".data allowedExtList

/-- The `/classify` rejection detail
`f"不支持的文件格式: {file_ext}。支持的格式: {', '.join(allowed_extensions)}"`. -/
def classifyMsg (ext : List Char) : List Char :=
  "不支持的文件格式: ".data ++ ext ++ classifyMsgTail

/-- The constant `/predict` rejection detail (`backend/main.py`,
line 55). -/
def predictMsg : List Char :=
  "不支持的文件类型。请上传图片文件（jpg, jpeg, png, bmp, gif, webp）".data

/-- The `/classify` extension gate: `ok` to proceed, or the HTTP status and
detail of the raised `HTTPException`. -/
def classifyFileCheck (filename : List Char) : Except (ℕ × List Char) Unit :=
  if classifyAccepts filename then Except.ok ()
  else Except.error (400, classifyMsg (lowerChars (splitextExt filename)))

/-- The `/predict` extension gate. -/
def predictFileCheck (filename : List Char) : Except (ℕ × List Char) Unit :=
  if predictAccepts filename then Except.ok ()
  else Except.error (400, predictMsg)

/-- The HTTP status a gate outcome corresponds to (200 meaning "proceed"). -/
def checkStatus (r : Except (ℕ × List Char) Unit) : ℕ :=
  match r with
  | .ok _ => 200
  | .error (s, _) => s

/-- The error detail of a gate outcome (empty when accepted). -/
def checkMsg (r : Except (ℕ × List Char) Unit) : List Char :=
  match r with
  | .ok _ => []
  | .error (_, msg) => msg

lemma isInfix_append_left {l r : List Char} (x : List Char) (h : l <:+: r) :
    l <:+: x ++ r := by
  rcases h with ⟨s, t, hst⟩
  exact ⟨x ++ s, t, by rw [← hst]; simp⟩

/-- Claim C10: the two endpoints' extension checks are different predicates
on filenames. `/classify` extracts the extension with `os.path.splitext`
and tests set membership, `/predict` tests whether the lower-cased filename
merely ends with an allowed suffix; on every filename consisting solely of
an allowed extension (`".jpg"`, `".jpeg"`, ...) `/predict` accepts the
upload while `/classify` rejects it with HTTP 400 (splitext gives such a
dotfile an empty extension). -/
theorem endpoint_checks_differ :
    classifyAccepts ".jpg".data = false ∧
    predictAccepts ".jpg".data = true ∧
    checkStatus (classifyFileCheck ".jpg".data) = 400 ∧
    checkStatus (predictFileCheck ".jpg".data) = 200 ∧
    allowedExtList.all (fun ext => predictAccepts ext && !(classifyAccepts ext)) = true := by
  refine ⟨by decide, by decide, by decide, by decide, by decide⟩

/-- Claim C7 counterexample: the claimed characterisation — acceptance iff
the filename's extension (as the code itself extracts it, via
`os.path.splitext`, lower-cased) is in the allowed set — is false of the
`/predict` endpoint: the filename `".jpg"` has empty extension yet is
accepted. -/
theorem extension_iff_fails_for_predict :
    ¬ (predictAccepts ".jpg".data =
        allowedExtList.contains (lowerChars (splitextExt ".jpg".data))) := by
  decide

/-- Claim C7 (amended): `/classify` accepts a filename iff its lower-cased
`os.path.splitext` extension is in `{.jpg, .jpeg, .png, .bmp, .gif,
.webp}`, rejecting any other upload with HTTP 400 and a message naming the
supported set (in particular the substring `".jpg"` occurs in it, and a
`.txt` upload yields exactly that); `/predict` instead accepts iff the
lower-cased filename ends with one of the allowed suffixes — a predicate
that differs from the extension test on extension-only names — and rejects
other uploads with HTTP 400 and a hint naming the formats without their
leading dots (so it contains `"jpg"` but not `".jpg"`). -/
theorem extension_check_behaviour (f : List Char) :
    (classifyAccepts f = true ↔
      lowerChars (splitextExt f) ∈ allowedExtList) ∧
    (predictAccepts f = true ↔
      ∃ ext ∈ allowedExtList, endsWithChars (lowerChars f) ext = true) ∧
    (classifyAccepts f = false →
      checkStatus (classifyFileCheck f) = 400 ∧
      ".jpg".data <:+: checkMsg (classifyFileCheck f)) ∧
    (predictAccepts f = false → checkStatus (predictFileCheck f) = 400) ∧
    checkStatus (classifyFileCheck "test.txt".data) = 400 ∧
    ".jpg".data <:+: checkMsg (classifyFileCheck "test.txt".data) ∧
    checkStatus (predictFileCheck "test.txt".data) = 400 ∧
    "jpg".data <:+: predictMsg ∧
    ¬ (".jpg".data <:+: predictMsg) := by
  refine ⟨?_, ?_, ?_, ?_, by decide, by decide, by decide, by decide, by decide⟩
  · unfold classifyAccepts
    simp
  · unfold predictAccepts
    rw [List.any_eq_true]
  · intro hrej
    unfold classifyFileCheck
    rw [hrej]
    refine ⟨rfl, ?_⟩
    show ".jpg".data <:+: classifyMsg _
    unfold classifyMsg classifyMsgTail
    refine isInfix_append_left _ (isInfix_append_left _ ?_)
    decide
  · intro hrej
    unfold predictFileCheck
    rw [hrej]
    rfl

/-- Concrete witness for the amended C7: the `.txt` scenario on both
endpoints, obtained from the general theorem. -/
theorem extension_check_behaviour_witness :
    checkStatus (classifyFileCheck "test.txt".data) = 400 ∧
    checkStatus (predictFileCheck "test.txt".data) = 400 :=
  ⟨(extension_check_behaviour "test.txt".data).2.2.2.2.1,
   (extension_check_behaviour "test.txt".data).2.2.2.2.2.2.1⟩

end ImgClassify
